import Mathlib

/-!
Shallow embedding of `src/plots/plot_counts.py`.

The two core functions of the repository are embedded over exact rational
arithmetic (ℚ stands for the numeric values held in pandas objects):

* `counts_to_percentages` — the Percentage Formatter;
* `calc_counts_and_percentages` — the Frequency Table Builder.

A pandas `Series` is modelled as an ordered association list `List (κ × ℚ)`
(index key, value); a `DataFrame` as an ordered association list from column
name to column data.  Python float division by zero does not raise: numpy
yields `nan` for `0/0` and `±inf` for `±c/0`, and every comparison with `nan`
is false while `f"{nan:.1f}" = "nan"`; the type `PFloat` makes those outcomes
explicit.  Python's `f"{i:.1f}"` rounds half to even, which `rhe` models over
ℚ, and `natChars`/`natRender` produce the decimal rendering.
-/

/-- Round half to even, the rounding used by Python's fixed-point float
formatting, transported to ℚ. -/
def rhe (q : ℚ) : ℤ :=
  let f : ℤ := ⌊q⌋
  let r : ℚ := q - f
  if r < 1/2 then f
  else if 1/2 < r then f + 1
  else if f % 2 = 0 then f else f + 1

/-- Decimal digit string of a natural number (model of Python's rendering of
the integral part of a number). -/
def natChars (m : ℕ) : List Char :=
  if _h : m < 10 then [Nat.digitChar m]
  else natChars (m / 10) ++ [Nat.digitChar (m % 10)]
  termination_by m
  decreasing_by exact Nat.div_lt_self (by omega) (by omega)

/-- Rendering of `m` tenths as a decimal string with one digit after the
point: `natRender 1000 = "100.0"`. -/
def natRender (m : ℕ) : String :=
  ⟨natChars (m / 10) ++ '.' :: [Nat.digitChar (m % 10)]⟩

/-- Model of Python's `f"{q:.1f}"`: round to one decimal place (half to even)
and render. -/
def fmt1 (q : ℚ) : String :=
  let n : ℤ := rhe (q * 10)
  if n < 0 then "-" ++ natRender n.natAbs else natRender n.toNat

/-- Result of a Python float division, which never raises: either a finite
rational, or `nan` (from `0/0`), or an infinity (from `±c/0`). -/
inductive PFloat where
  | nan : PFloat
  | inf : PFloat
  | ninf : PFloat
  | fin : ℚ → PFloat
deriving DecidableEq

/-- One element of the pandas expression `x / x_sum * 100` in
`counts_to_percentages`: float semantics of `c / s * 100`. -/
def divPercent (c s : ℚ) : PFloat :=
  if s = 0 then
    if c = 0 then .nan else if 0 < c then .inf else .ninf
  else .fin (c / s * 100)

/-- The conditional-expression chain of `counts_to_percentages`:
`"0%" if i == 0 else "<0.1%" if i < 0.1 else ">99.9%" if 99.9 < i < 100
else f"{i:.1f}%"`.  Every comparison with `nan` is false, so `nan` falls
through to the final branch and renders as `"nan%"`; `inf` likewise renders
as `"inf%"`; `-inf` satisfies `i < 0.1` and yields `"<0.1%"`. -/
def formatPercentValue : PFloat → String
  | .nan => "nan%"
  | .inf => "inf%"
  | .ninf => "<0.1%"
  | .fin i =>
    if i = 0 then "0%"
    else if i < 0.1 then "<0.1%"
    else if 99.9 < i ∧ i < 100 then ">99.9%"
    else fmt1 i ++ "%"

/-- The post-processing step `.replace("0.0%", "<0.1%")`, which pandas applies
elementwise to the formatted series. -/
def fixup (s : String) : String :=
  if s = "0.0%" then "<0.1%" else s

/-- `x.sum()` of a series. -/
def seriesSum {κ : Type} (x : List (κ × ℚ)) : ℚ :=
  (x.map Prod.snd).sum

/-- Embedding of `counts_to_percentages` (src/plots/plot_counts.py, lines
27–44): compute `x_sum = x.sum()`, format every element of
`x / x_sum * 100` by the conditional chain, keep the index, and apply
`.replace("0.0%", "<0.1%")`.  The `name`/`rename` argument only names the
output series and is dropped from the model. -/
def counts_to_percentages {κ : Type} (x : List (κ × ℚ)) : List (κ × String) :=
  let s := seriesSum x
  x.map fun kv => (kv.1, fixup (formatPercentValue (divPercent kv.2 s)))

/-- The raw (unformatted) percentage values `x / x_sum * 100` of a series,
the intermediate series inside `counts_to_percentages`, taken over exact
rational arithmetic. -/
def rawPercentages {κ : Type} (x : List (κ × ℚ)) : List ℚ :=
  x.map fun kv => kv.2 / seriesSum x * 100

/-- Modelled from the spec (§4.1, step 3): the ordered first-match-wins
formatting rules exactly as the specification words them, applied to the raw
percentage `p`.  Used only to compare the source's behaviour against the
spec's wording. -/
def specFormatP (p : ℚ) : String :=
  if p = 0 then "0%"
  else if 0 < p ∧ p < 0.1 then "<0.1%"
  else if 99.9 < p ∧ p < 100 then ">99.9%"
  else fmt1 p ++ "%"

/-- A value held in a dataframe cell: a category label or a number. -/
inductive Cell where
  | str : String → Cell
  | num : ℚ → Cell
deriving DecidableEq

/-- A pandas `DataFrame`, as used by `calc_counts_and_percentages`: an ordered
association list from column name to column data. -/
def DataFrame : Type := List (String × List Cell)

/-- Column selection `data[name]`: the first column of that name, or the
pandas `KeyError` when the name is absent. -/
def getCol (data : DataFrame) (name : String) : Except String (List Cell) :=
  match data.find? (fun c => c.1 == name) with
  | some c => .ok c.2
  | none => .error ("KeyError: " ++ name)

/-- The distinct values of a list in order of first occurrence — the order in
which pandas enumerates the unique values of a column. -/
def uniqFirst : List Cell → List Cell
  | [] => []
  | a :: l => a :: uniqFirst (l.filter fun b => decide ¬b = a)
  termination_by l => l.length
  decreasing_by
    exact Nat.lt_succ_of_le (List.length_filter_le _ l)

/-- Stable insertion of `a` into `l`, placing `a` before the first element it
compares `le` to. -/
def insertOrd {α : Type} (le : α → α → Bool) (a : α) : List α → List α
  | [] => [a]
  | b :: l => if le a b then a :: b :: l else b :: insertOrd le a l

/-- Stable sort by the Boolean comparison `le` — the model of pandas sorting
(`value_counts(sort=True)`, `sort_index`, `groupby(sort=True)`); stability
gives the tie behaviour of keeping the underlying order. -/
def sortBy {α : Type} (le : α → α → Bool) : List α → List α
  | [] => []
  | a :: l => insertOrd le a (sortBy le l)

/-- Embedding of `data[group].value_counts(sort=vsort)`: one entry per
distinct value (first-occurrence enumeration order) with its number of
occurrences; with `vsort` the entries are ordered by count descending, ties
keeping the enumeration order. -/
def value_counts (xs : List Cell) (vsort : Bool) : List (Cell × ℚ) :=
  let base := (uniqFirst xs).map fun v => (v, (xs.count v : ℚ))
  if vsort then sortBy (fun a b => decide (b.2 ≤ a.2)) base else base

/-- Ordering on cells used when pandas sorts by index or groups by key:
strings lexicographically, numbers numerically.  (A column mixing both kinds
is outside any behaviour the repository exercises; the order across kinds is
fixed arbitrarily.) -/
def cellLe : Cell → Cell → Bool
  | .str a, .str b => a ≤ b
  | .str _, .num _ => true
  | .num _, .str _ => false
  | .num a, .num b => a ≤ b

/-- Embedding of `counts.sort_index()`: sort the series by its index keys,
ascending. -/
def sort_index (xs : List (Cell × ℚ)) : List (Cell × ℚ) :=
  sortBy (fun a b => cellLe a.1 b.1) xs

/-- Extraction of the numeric contents of a weight column.  The spec's data
model fixes weights to be numeric (§3, Glossary); a non-numeric weight cell is
reported as an error. -/
def numCells : List Cell → Except String (List ℚ)
  | [] => .ok []
  | c :: l =>
    match c with
    | .str s => .error ("TypeError: non-numeric value " ++ s)
    | .num q =>
      match numCells l with
      | .error e => .error e
      | .ok qs => .ok (q :: qs)

/-- `data[name]` for a weight column, as the list of its numeric values. -/
def getNumCol (data : DataFrame) (name : String) : Except String (List ℚ) :=
  match getCol data name with
  | .error e => .error e
  | .ok col => numCells col

/-- Embedding of `data.groupby(group)[weight].sum()`: group keys are the
distinct values of the key column sorted ascending (the pandas `groupby`
default), and each key maps to the sum of the weight values of its rows. -/
def groupby_sum (keys : List Cell) (vals : List ℚ) : List (Cell × ℚ) :=
  let rows := keys.zip vals
  (sortBy cellLe (uniqFirst keys)).map fun k =>
    (k, ((rows.filter fun r => decide (r.1 = k)).map Prod.snd).sum)

/-- The `sort` argument of `calc_counts_and_percentages`: the Python value
`True`, the string `"index"`, or anything else (for example `False`). -/
inductive SortArg where
  | sTrue : SortArg
  | sIndex : SortArg
  | sOther : SortArg
deriving DecidableEq

/-- The assembly step
`pd.concat([counts.rename(n_label), percent.rename(perc_label)], axis=1)
 .rename_axis(group).reset_index()`:
one output row (label, count, percentage) per entry of `counts`.  The two
series carry the same index keys in the same order (the formatter preserves
them), so the index-aligned `concat` is positional. -/
def attach_percent (counts : List (Cell × ℚ)) : List (Cell × ℚ × String) :=
  (counts.zip (counts_to_percentages counts)).map fun r => (r.1.1, r.1.2, r.2.2)

/-- Embedding of `calc_counts_and_percentages` (src/plots/plot_counts.py,
lines 46–87).  `vsort = (sort == True)`; without a weight the counts come from
`value_counts(sort=vsort)` followed by `sort_index()` when `sort == "index"`;
with a weight they come from `groupby(group)[weight].sum()` and the `sort`
argument is never consulted.  The `n_label`/`perc_label` arguments only name
the output columns and are dropped from the model of the row data. -/
def calc_counts_and_percentages (group : String) (data : DataFrame)
    (sort : SortArg) (weight : Option String) :
    Except String (List (Cell × ℚ × String)) :=
  match weight with
  | none =>
    match getCol data group with
    | .error e => .error e
    | .ok col =>
      let c := value_counts col (sort == SortArg.sTrue)
      let counts := if sort = SortArg.sIndex then sort_index c else c
      .ok (attach_percent counts)
  | some w =>
    match getCol data group with
    | .error e => .error e
    | .ok keys =>
      match getNumCol data w with
      | .error e => .error e
      | .ok vals => .ok (attach_percent (groupby_sum keys vals))

/-- Column-presence predicate: `name` is one of the column names of `data`. -/
def hasCol (data : DataFrame) (name : String) : Prop :=
  name ∈ data.map Prod.fst

/-- A small concrete table used to exercise the builder: group column `"g"`
with categories `b, a, b, b` and weight column `"w"` with values
`1, 2, 1, 1`. -/
def dfA : DataFrame :=
  [("g", [Cell.str "b", Cell.str "a", Cell.str "b", Cell.str "b"]),
   ("w", [Cell.num 1, Cell.num 2, Cell.num 1, Cell.num 1])]

/-- The group column of `dfA`. -/
def colA : List Cell :=
  [Cell.str "b", Cell.str "a", Cell.str "b", Cell.str "b"]

/-- Frequency table of `dfA` grouped by `"g"`, default sort (count
descending). -/
def rowsA : List (Cell × ℚ × String) :=
  [(Cell.str "b", 3, "75.0%"), (Cell.str "a", 1, "25.0%")]

/-- Frequency table of `dfA` grouped by `"g"`, sorted by index (label
ascending). -/
def rowsI : List (Cell × ℚ × String) :=
  [(Cell.str "a", 1, "25.0%"), (Cell.str "b", 3, "75.0%")]

/-- Frequency table of `dfA` grouped by `"g"` weighted by `"w"`. -/
def rowsW : List (Cell × ℚ × String) :=
  [(Cell.str "a", 2, "40.0%"), (Cell.str "b", 3, "60.0%")]

/-- A zero-row table: both columns exist and are empty. -/
def dfE : DataFrame :=
  [("g", ([] : List Cell)), ("w", ([] : List Cell))]

/-! ### Rendering and rounding lemmas -/

lemma natChars_length_pos (m : ℕ) : 1 ≤ (natChars m).length := by
  unfold natChars
  split
  · simp
  · simp

lemma natChars_eq_single_zero (k : ℕ) (h : natChars k = ['0']) : k = 0 := by
  by_cases hk : k < 10
  · rw [natChars, dif_pos hk] at h
    have hall : ∀ j, j < 10 → Nat.digitChar j = '0' → j = 0 := by decide
    exact hall k hk (by simpa using h)
  · exfalso
    rw [natChars, dif_neg hk] at h
    have hlen := congrArg List.length h
    simp only [List.length_append, List.length_cons, List.length_nil] at hlen
    have := natChars_length_pos (k / 10)
    omega

lemma natRender_ne_zero_str (m : ℕ) (hm : 1 ≤ m) : natRender m ≠ "0.0" := by
  intro h
  have hd : natChars (m / 10) ++ '.' :: [Nat.digitChar (m % 10)] = ['0', '.', '0'] := by
    simpa [natRender] using congrArg String.data h
  have hlen := congrArg List.length hd
  simp at hlen
  have h1 : (natChars (m / 10)).length = 1 := by omega
  obtain ⟨c, hc⟩ := List.length_eq_one.mp h1
  rw [hc] at hd
  simp at hd
  obtain ⟨hc0, hd0⟩ := hd
  have hm10 : m / 10 = 0 := natChars_eq_single_zero _ (by rw [hc, hc0])
  have hmod : m % 10 = 0 := by
    have hlt : m % 10 < 10 := Nat.mod_lt _ (by omega)
    have hall : ∀ j, j < 10 → Nat.digitChar j = '0' → j = 0 := by decide
    exact hall _ hlt hd0
  omega

lemma natRender_append_ne (m : ℕ) (hm : 1 ≤ m) : natRender m ++ "%" ≠ "0.0%" := by
  intro h
  have hd := congrArg String.data h
  rw [String.data_append] at hd
  have hsplit : ("0.0%").data = ("0.0").data ++ ("%").data := rfl
  rw [hsplit] at hd
  exact natRender_ne_zero_str m hm (String.ext (List.append_cancel_right hd))

lemma rhe_intCast (n : ℤ) : rhe ((n : ℚ)) = n := by
  unfold rhe
  rw [Int.floor_intCast]
  norm_num

lemma rhe_ge_one (q : ℚ) (h : 1 ≤ q) : 1 ≤ rhe q := by
  have hf : (1 : ℤ) ≤ ⌊q⌋ := by
    rw [Int.le_floor]
    exact_mod_cast h
  simp only [rhe]
  split_ifs <;> omega

lemma fmt1_append_ne (q : ℚ) (h : (0.1 : ℚ) ≤ q) : fmt1 q ++ "%" ≠ "0.0%" := by
  have h10 : (1 : ℚ) ≤ q * 10 := by nlinarith
  have hn : 1 ≤ rhe (q * 10) := rhe_ge_one _ h10
  simp only [fmt1]
  rw [if_neg (by omega)]
  exact natRender_append_ne _ (by omega)

lemma fixup_of_ne (s : String) (h : s ≠ "0.0%") : fixup s = s := if_neg h

/-! ### Per-entry behaviour of the formatter -/

lemma fmt_spec (p : ℚ) (hp : 0 ≤ p) :
    fixup (formatPercentValue (.fin p)) = specFormatP p := by
  simp only [formatPercentValue, specFormatP]
  by_cases h0 : p = 0
  · rw [if_pos h0, if_pos h0]
    exact fixup_of_ne _ (by decide)
  · rw [if_neg h0, if_neg h0]
    have hpos : 0 < p := lt_of_le_of_ne hp (Ne.symm h0)
    by_cases h1 : p < 0.1
    · rw [if_pos h1, if_pos ⟨hpos, h1⟩]
      exact fixup_of_ne _ (by decide)
    · rw [if_neg h1, if_neg (show ¬(0 < p ∧ p < 0.1) from fun hc => h1 hc.2)]
      by_cases h2 : 99.9 < p ∧ p < 100
      · rw [if_pos h2]
        exact fixup_of_ne _ (by decide)
      · rw [if_neg h2]
        exact fixup_of_ne _ (fmt1_append_ne p (not_lt.mp h1))

lemma fmt_entry_zero (s : ℚ) (hs : s ≠ 0) :
    fixup (formatPercentValue (divPercent 0 s)) = "0%" := by
  simp only [divPercent, if_neg hs]
  have hz : (0 : ℚ) / s * 100 = 0 := by
    rw [zero_div, zero_mul]
  rw [hz]
  simp only [formatPercentValue, if_pos rfl]
  exact fixup_of_ne _ (by decide)

lemma fmt1_natCast (n : ℕ) : fmt1 ((n : ℚ)) = natRender (n * 10) := by
  have hc : ((n : ℚ)) * 10 = (((n * 10 : ℕ) : ℤ) : ℚ) := by push_cast; ring
  simp only [fmt1, hc, rhe_intCast]
  rw [if_neg (by omega)]
  congr 1

lemma fmt_entry_nat (c s : ℚ) (n : ℕ) (hs : s ≠ 0) (hq : c / s * 100 = (n : ℚ))
    (h1 : 1 ≤ n) (h2 : n ≤ 100) :
    fixup (formatPercentValue (divPercent c s)) = natRender (n * 10) ++ "%" := by
  simp only [divPercent, if_neg hs, hq, formatPercentValue]
  have hcast : (1 : ℚ) ≤ (n : ℚ) := by exact_mod_cast h1
  have hqpos : (0 : ℚ) < (n : ℚ) := by linarith
  rw [if_neg (ne_of_gt hqpos)]
  rw [if_neg (show ¬((n : ℚ) < 0.1) by intro hx; linarith)]
  have h99 : ¬ ((99.9 : ℚ) < (n : ℚ) ∧ (n : ℚ) < 100) := by
    rintro ⟨ha, hb⟩
    have hn100 : n < 100 := by exact_mod_cast hb
    have hn99 : (n : ℚ) ≤ 99 := by exact_mod_cast Nat.lt_succ_iff.mp hn100
    linarith
  rw [if_neg h99, fmt1_natCast]
  exact fixup_of_ne _ (natRender_append_ne _ (by omega))

/-! ### Structural lemmas -/

lemma zip_self_map {α β γ : Type} (l : List α) (g : α → β) (h : α × β → γ) :
    (l.zip (l.map g)).map h = l.map fun a => h (a, g a) := by
  induction l with
  | nil => rfl
  | cons a l ih => simp [List.zip_cons_cons, ih]

lemma counts_to_percentages_eq_map {κ : Type} (x : List (κ × ℚ)) :
    counts_to_percentages x =
      x.map fun kv =>
        (kv.1, fixup (formatPercentValue (divPercent kv.2 (seriesSum x)))) := rfl

lemma counts_to_percentages_map_fst {κ : Type} (x : List (κ × ℚ)) :
    (counts_to_percentages x).map Prod.fst = x.map Prod.fst := by
  rw [counts_to_percentages_eq_map, List.map_map]
  rfl

lemma attach_percent_eq_map (counts : List (Cell × ℚ)) :
    attach_percent counts =
      counts.map fun kv =>
        (kv.1, kv.2, fixup (formatPercentValue (divPercent kv.2 (seriesSum counts)))) := by
  unfold attach_percent
  rw [counts_to_percentages_eq_map, zip_self_map]

lemma attach_percent_map_fst (counts : List (Cell × ℚ)) :
    (attach_percent counts).map (fun r => r.1) = counts.map Prod.fst := by
  rw [attach_percent_eq_map, List.map_map]
  rfl

lemma insertOrd_perm {α : Type} (le : α → α → Bool) (a : α) (l : List α) :
    (insertOrd le a l).Perm (a :: l) := by
  induction l with
  | nil => exact List.Perm.refl _
  | cons b l ih =>
    simp only [insertOrd]
    split
    · exact List.Perm.refl _
    · exact (List.Perm.cons b ih).trans (List.Perm.swap a b l)

lemma sortBy_perm {α : Type} (le : α → α → Bool) (l : List α) :
    (sortBy le l).Perm l := by
  induction l with
  | nil => exact List.Perm.refl _
  | cons a l ih =>
    simp only [sortBy]
    exact (insertOrd_perm le a (sortBy le l)).trans (List.Perm.cons a ih)

lemma insertOrd_pairwise {α : Type} (le : α → α → Bool)
    (htrans : ∀ x y z, le x y = true → le y z = true → le x z = true)
    (htotal : ∀ x y, le x y = true ∨ le y x = true)
    (a : α) (l : List α) (hl : l.Pairwise fun x y => le x y = true) :
    (insertOrd le a l).Pairwise fun x y => le x y = true := by
  induction l with
  | nil => simp [insertOrd]
  | cons b l ih =>
    rw [List.pairwise_cons] at hl
    obtain ⟨hb, hl'⟩ := hl
    simp only [insertOrd]
    split
    case isTrue hab =>
      rw [List.pairwise_cons]
      refine ⟨?_, List.pairwise_cons.mpr ⟨hb, hl'⟩⟩
      intro x hx
      rcases List.mem_cons.mp hx with hxb | hxl
      · rw [hxb]; exact hab
      · exact htrans a b x hab (hb x hxl)
    case isFalse hab =>
      have hba : le b a = true := by
        rcases htotal a b with h | h
        · exact absurd h hab
        · exact h
      rw [List.pairwise_cons]
      refine ⟨?_, ih hl'⟩
      intro x hx
      rcases List.mem_cons.mp ((insertOrd_perm le a l).mem_iff.mp hx) with hxa | hxl
      · rw [hxa]; exact hba
      · exact hb x hxl

lemma sortBy_pairwise {α : Type} (le : α → α → Bool)
    (htrans : ∀ x y z, le x y = true → le y z = true → le x z = true)
    (htotal : ∀ x y, le x y = true ∨ le y x = true) (l : List α) :
    (sortBy le l).Pairwise fun x y => le x y = true := by
  induction l with
  | nil => simp [sortBy]
  | cons a l ih =>
    simp only [sortBy]
    exact insertOrd_pairwise le htrans htotal a _ ih

lemma mem_uniqFirst (a : Cell) (l : List Cell) : a ∈ uniqFirst l ↔ a ∈ l := by
  induction l using uniqFirst.induct with
  | case1 => simp [uniqFirst]
  | case2 b l ih =>
    rw [uniqFirst, List.mem_cons, ih, List.mem_filter, List.mem_cons]
    by_cases hab : a = b
    · simp [hab]
    · simp [hab]

lemma uniqFirst_nodup (l : List Cell) : (uniqFirst l).Nodup := by
  induction l using uniqFirst.induct with
  | case1 => simp [uniqFirst]
  | case2 b l ih =>
    rw [uniqFirst, List.nodup_cons]
    refine ⟨?_, ih⟩
    intro hmem
    have := List.mem_filter.mp ((mem_uniqFirst b _).mp hmem)
    simp at this

lemma uniqFirst_toFinset (l : List Cell) : (uniqFirst l).toFinset = l.toFinset := by
  refine Finset.ext fun a => ?_
  rw [List.mem_toFinset, List.mem_toFinset, mem_uniqFirst]

lemma uniqFirst_length (l : List Cell) : (uniqFirst l).length = l.toFinset.card := by
  rw [← uniqFirst_toFinset, List.toFinset_card_of_nodup (uniqFirst_nodup l)]

lemma cellLe_trans (x y z : Cell) (hxy : cellLe x y = true) (hyz : cellLe y z = true) :
    cellLe x z = true := by
  cases x <;> cases y <;> cases z <;> simp_all [cellLe] <;> try exact le_trans hxy hyz

lemma cellLe_total (x y : Cell) : cellLe x y = true ∨ cellLe y x = true := by
  cases x <;> cases y <;> simp [cellLe] <;> exact le_total _ _

lemma getCol_of_missing (data : DataFrame) (name : String) (h : ¬hasCol data name) :
    getCol data name = .error ("KeyError: " ++ name) := by
  unfold getCol
  have hnone : data.find? (fun c => c.1 == name) = none := by
    rw [List.find?_eq_none]
    intro x hx hbeq
    exact h (List.mem_map.mpr ⟨x, hx, by simpa using hbeq⟩)
  rw [hnone]

/-! ### Reduction lemmas for the table builder -/

lemma calc_unweighted_eq (group : String) (data : DataFrame) (col : List Cell)
    (sort : SortArg) (hcol : getCol data group = .ok col) :
    calc_counts_and_percentages group data sort none =
      .ok (attach_percent (if sort = SortArg.sIndex
        then sort_index (value_counts col (sort == SortArg.sTrue))
        else value_counts col (sort == SortArg.sTrue))) := by
  unfold calc_counts_and_percentages
  rw [hcol]

lemma calc_weighted_eq (group : String) (data : DataFrame) (keys : List Cell)
    (vals : List ℚ) (w : String) (sort : SortArg)
    (hg : getCol data group = .ok keys) (hw : getNumCol data w = .ok vals) :
    calc_counts_and_percentages group data sort (some w) =
      .ok (attach_percent (groupby_sum keys vals)) := by
  unfold calc_counts_and_percentages
  rw [hg]
  dsimp only
  rw [hw]

lemma calc_unweighted_err (group : String) (data : DataFrame) (e : String)
    (sort : SortArg) (hcol : getCol data group = .error e) :
    calc_counts_and_percentages group data sort none = .error e := by
  unfold calc_counts_and_percentages
  rw [hcol]

lemma calc_weighted_err_group (group : String) (data : DataFrame) (e : String)
    (sort : SortArg) (w : String) (hcol : getCol data group = .error e) :
    calc_counts_and_percentages group data sort (some w) = .error e := by
  unfold calc_counts_and_percentages
  rw [hcol]

lemma calc_weighted_err_num (group : String) (data : DataFrame) (keys : List Cell)
    (e : String) (sort : SortArg) (w : String)
    (hg : getCol data group = .ok keys) (hw : getNumCol data w = .error e) :
    calc_counts_and_percentages group data sort (some w) = .error e := by
  unfold calc_counts_and_percentages
  rw [hg]
  dsimp only
  rw [hw]

lemma value_counts_perm (xs : List Cell) (b : Bool) :
    (value_counts xs b).Perm ((uniqFirst xs).map fun v => (v, (xs.count v : ℚ))) := by
  unfold value_counts
  cases b
  · exact List.Perm.refl _
  · exact sortBy_perm _ _

lemma counts_pipeline_perm (col : List Cell) (sort : SortArg) :
    (if sort = SortArg.sIndex
      then sort_index (value_counts col (sort == SortArg.sTrue))
      else value_counts col (sort == SortArg.sTrue)).Perm
      ((uniqFirst col).map fun v => (v, (col.count v : ℚ))) := by
  split
  · exact (sortBy_perm _ _).trans (value_counts_perm _ _)
  · exact value_counts_perm _ _

lemma base_map_fst (col : List Cell) :
    (((uniqFirst col).map fun v => (v, (col.count v : ℚ))).map Prod.fst) =
      uniqFirst col := by
  rw [List.map_map]
  have hcomp : (Prod.fst ∘ fun v : Cell => (v, (col.count v : ℚ))) = id := rfl
  rw [hcomp, List.map_id]

lemma groupby_sum_map_fst (keys : List Cell) (vals : List ℚ) :
    (groupby_sum keys vals).map Prod.fst = sortBy cellLe (uniqFirst keys) := by
  simp only [groupby_sum]
  rw [List.map_map]
  have hcomp : (Prod.fst ∘ fun k : Cell =>
      (k, (((keys.zip vals).filter fun r => decide (r.1 = k)).map Prod.snd).sum)) = id := rfl
  rw [hcomp, List.map_id]

lemma descBool_trans (x y z : Cell × ℚ)
    (h1 : decide (y.2 ≤ x.2) = true) (h2 : decide (z.2 ≤ y.2) = true) :
    decide (z.2 ≤ x.2) = true := by
  rw [decide_eq_true_eq] at *
  exact le_trans h2 h1

lemma descBool_total (x y : Cell × ℚ) :
    decide (y.2 ≤ x.2) = true ∨ decide (x.2 ≤ y.2) = true := by
  rcases le_total y.2 x.2 with h | h
  · exact Or.inl (decide_eq_true h)
  · exact Or.inr (decide_eq_true h)

/-! ### Evaluation helpers for concrete percentages -/

lemma natChars_base (m : ℕ) (h : m < 10) : natChars m = [Nat.digitChar m] := by
  rw [natChars, dif_pos h]

lemma natChars_step (m : ℕ) (h : ¬m < 10) :
    natChars m = natChars (m / 10) ++ [Nat.digitChar (m % 10)] := by
  rw [natChars, dif_neg h]

lemma fmt1_100 : fmt1 (100 : ℚ) ++ "%" = "100.0%" := by
  have hcast : fmt1 ((100 : ℕ) : ℚ) = natRender (100 * 10) := fmt1_natCast 100
  norm_num at hcast
  rw [hcast]
  have e1 : natChars 1 = ['1'] := by
    rw [natChars_base 1 (by norm_num)]
    decide
  have e10 : natChars 10 = ['1', '0'] := by
    rw [natChars_step 10 (by norm_num)]
    norm_num [e1]
    decide
  have e100 : natChars 100 = ['1', '0', '0'] := by
    rw [natChars_step 100 (by norm_num)]
    norm_num [e10]
    decide
  unfold natRender
  norm_num [e100]
  decide

lemma format_fin_100 : fixup (formatPercentValue (.fin 100)) = "100.0%" := by
  simp only [formatPercentValue]
  rw [if_neg (by norm_num), if_neg (by norm_num), if_neg (by norm_num), fmt1_100]
  exact fixup_of_ne _ (by decide)

lemma specFormatP_100 : specFormatP 100 = "100.0%" := by
  simp only [specFormatP]
  rw [if_neg (by norm_num), if_neg (by norm_num), if_neg (by norm_num)]
  exact fmt1_100

lemma fixup_ne_zero_str (s : String) : fixup s ≠ "0.0%" := by
  unfold fixup
  split
  · decide
  · assumption

/-! ### Claim theorems -/

/-- C1: for every count series of non-negative values with positive total,
the formatter maps each count `c` (with `p = c / total * 100`) exactly by the
spec's ordered first-match-wins rules (`p = 0` ↦ `"0%"`; `0 < p < 0.1` ↦
`"<0.1%"`; `99.9 < p < 100` ↦ `">99.9%"`; otherwise one-decimal rendering),
and an exact 100% share formats as `"100.0%"`, not `">99.9%"`. -/
theorem counts_to_percentages_follows_spec_rules {κ : Type} (x : List (κ × ℚ))
    (hnn : ∀ kv ∈ x, 0 ≤ kv.2) (hs : 0 < seriesSum x) :
    counts_to_percentages x =
      (x.map fun kv => (kv.1, specFormatP (kv.2 / seriesSum x * 100)))
    ∧ fixup (formatPercentValue (.fin 100)) = "100.0%"
    ∧ specFormatP 100 = "100.0%" := by
  refine ⟨?_, format_fin_100, specFormatP_100⟩
  rw [counts_to_percentages_eq_map]
  refine List.map_congr_left ?_
  intro kv hkv
  have hp : 0 ≤ kv.2 / seriesSum x * 100 :=
    mul_nonneg (div_nonneg (hnn kv hkv) hs.le) (by norm_num)
  rw [divPercent, if_neg (ne_of_gt hs), fmt_spec _ hp]

/-- Witness for C1 at the singleton series `[((), 1)]`. -/
theorem counts_to_percentages_follows_spec_rules_witness :
    (∀ kv ∈ [((), (1 : ℚ))], 0 ≤ kv.2) ∧ 0 < seriesSum [((), (1 : ℚ))]
    ∧ (counts_to_percentages [((), (1 : ℚ))] =
      ([((), (1 : ℚ))].map fun kv => (kv.1, specFormatP (kv.2 / seriesSum [((), (1 : ℚ))] * 100)))
    ∧ fixup (formatPercentValue (.fin 100)) = "100.0%"
    ∧ specFormatP 100 = "100.0%") :=
  ⟨by intro kv hkv; rw [List.mem_singleton.mp hkv]; norm_num,
   by norm_num [seriesSum],
   counts_to_percentages_follows_spec_rules [((), (1 : ℚ))]
    (by intro kv hkv; rw [List.mem_singleton.mp hkv]; norm_num)
    (by norm_num [seriesSum])⟩

/-- C2: for every non-empty count series with positive total, the raw
percentage values `c / total * 100` sum to exactly 100 over ℚ. -/
theorem rawPercentages_sum_100 {κ : Type} (x : List (κ × ℚ))
    (hne : x ≠ []) (hs : 0 < seriesSum x) :
    (rawPercentages x).sum = 100 := by
  unfold rawPercentages
  have hpt : ∀ kv ∈ x, kv.2 / seriesSum x * 100 = kv.2 * (100 / seriesSum x) := by
    intro kv _
    ring
  rw [List.map_congr_left hpt, List.sum_map_mul_right]
  have hsum : (x.map fun kv => kv.2).sum = seriesSum x := rfl
  rw [hsum, mul_comm, div_mul_cancel₀ _ (ne_of_gt hs)]

/-- Witness for C2 at the singleton series `[((), 2)]`. -/
theorem rawPercentages_sum_100_witness :
    [((), (2 : ℚ))] ≠ [] ∧ 0 < seriesSum [((), (2 : ℚ))]
    ∧ (rawPercentages [((), (2 : ℚ))]).sum = 100 :=
  ⟨by simp, by norm_num [seriesSum],
   rawPercentages_sum_100 [((), (2 : ℚ))] (by simp) (by norm_num [seriesSum])⟩

/-- C6: for every count series of non-negative values, no output of the
formatter is the literal `"0.0%"`; the post-processing fix-up step maps
`"0.0%"` to `"<0.1%"`. -/
theorem counts_to_percentages_never_zero_point_zero {κ : Type} (x : List (κ × ℚ))
    (hnn : ∀ kv ∈ x, 0 ≤ kv.2) :
    (∀ kv ∈ counts_to_percentages x, kv.2 ≠ "0.0%")
    ∧ fixup "0.0%" = "<0.1%" := by
  refine ⟨?_, rfl⟩
  intro kv hkv
  rw [counts_to_percentages_eq_map] at hkv
  obtain ⟨ab, _, heq⟩ := List.mem_map.mp hkv
  rw [← heq]
  exact fixup_ne_zero_str _

/-- Witness for C6 at the series `[((), 1)]`. -/
theorem counts_to_percentages_never_zero_point_zero_witness :
    (∀ kv ∈ [((), (1 : ℚ))], 0 ≤ kv.2)
    ∧ (∀ kv ∈ counts_to_percentages [((), (1 : ℚ))], kv.2 ≠ "0.0%")
    ∧ fixup "0.0%" = "<0.1%" := by
  refine ⟨by intro kv hkv; rw [List.mem_singleton.mp hkv]; norm_num, ?_⟩
  exact counts_to_percentages_never_zero_point_zero [((), (1 : ℚ))]
    (by intro kv hkv; rw [List.mem_singleton.mp hkv]; norm_num)

/-- C8: the formatter's output series has exactly the keys of the input
series, in the same order. -/
theorem counts_to_percentages_preserves_keys {κ : Type} (x : List (κ × ℚ)) :
    (counts_to_percentages x).map Prod.fst = x.map Prod.fst :=
  counts_to_percentages_map_fst x

/-- C7 counterexample: in the series `{a: 0}` the total is 0, the division
`0 / 0` produces `nan`, and the zero count formats as `"nan%"`, not `"0%"`. -/
theorem zero_count_zero_total_formats_nan :
    counts_to_percentages [(("a" : String), (0 : ℚ))] = [("a", "nan%")]
    ∧ counts_to_percentages [(("a" : String), (0 : ℚ))] ≠ [("a", "0%")] := by
  have hs : seriesSum [(("a" : String), (0 : ℚ))] = 0 := by
    norm_num [seriesSum]
  have h : counts_to_percentages [(("a" : String), (0 : ℚ))] = [("a", "nan%")] := by
    rw [counts_to_percentages_eq_map, hs]
    simp [divPercent, formatPercentValue, fixup]
  refine ⟨h, ?_⟩
  rw [h]
  simp

/-- C7 amended: a count of 0 formats as `"0%"` regardless of the series
total, provided the total is nonzero (with a zero total the division produces
`nan` and the entry formats as `"nan%"`). -/
theorem zero_count_formats_zero {κ : Type} (x : List (κ × ℚ))
    (hs : seriesSum x ≠ 0) (i : ℕ) (hi : i < x.length)
    (hz : (x.get ⟨i, hi⟩).2 = 0) :
    ∀ hi2 : i < (counts_to_percentages x).length,
      ((counts_to_percentages x).get ⟨i, hi2⟩).2 = "0%" := by
  intro hi2
  have hentry : (counts_to_percentages x).get ⟨i, hi2⟩ =
      ((x.get ⟨i, hi⟩).1,
        fixup (formatPercentValue (divPercent (x.get ⟨i, hi⟩).2 (seriesSum x)))) := by
    simp [counts_to_percentages_eq_map, List.get_eq_getElem, List.getElem_map]
  rw [hentry, hz]
  exact fmt_entry_zero _ hs

/-- Witness for the amended C7 at the series `[((), 1), ((), 0)]`, index 1. -/
theorem zero_count_formats_zero_witness :
    seriesSum [((), (1 : ℚ)), ((), (0 : ℚ))] ≠ 0
    ∧ (([((), (1 : ℚ)), ((), (0 : ℚ))].get ⟨1, by norm_num⟩).2 = 0)
    ∧ ((counts_to_percentages [((), (1 : ℚ)), ((), (0 : ℚ))]).get
      ⟨1, by simp [counts_to_percentages]⟩).2 = "0%" :=
  ⟨by norm_num [seriesSum], rfl,
   zero_count_formats_zero [((), (1 : ℚ)), ((), (0 : ℚ))]
    (by norm_num [seriesSum]) 1 (by norm_num) rfl _⟩

/-- C4: a zero-row input table yields a zero-row frequency table on both the
unweighted and the weighted path, and the formatter maps the empty count
series to the empty percentage series without any division. -/
theorem empty_table_empty_freq_table (data : DataFrame) (group w : String)
    (sort : SortArg) (hg : getCol data group = .ok [])
    (hw : getCol data w = .ok []) :
    calc_counts_and_percentages group data sort none = .ok []
    ∧ calc_counts_and_percentages group data sort (some w) = .ok []
    ∧ counts_to_percentages ([] : List (Cell × ℚ)) = [] := by
  refine ⟨?_, ?_, rfl⟩
  · have h1 : value_counts [] (sort == SortArg.sTrue) = [] := by
      simp [value_counts, uniqFirst, sortBy]
    rw [calc_unweighted_eq group data [] sort hg, h1]
    simp [sort_index, sortBy, attach_percent, counts_to_percentages]
  · have h2 : getNumCol data w = .ok [] := by
      unfold getNumCol
      rw [hw]
      rfl
    rw [calc_weighted_eq group data [] [] w sort hg h2]
    simp [groupby_sum, uniqFirst, sortBy, attach_percent, counts_to_percentages]

/-- C5: when the requested group column or weight column is absent, the
builder fails with the Missing-Column (`KeyError`) error and produces no
table. -/
theorem missing_column_errors (group : String) (data : DataFrame)
    (sort : SortArg) (weight : Option String)
    (h : ¬hasCol data group ∨ ∃ w, weight = some w ∧ ¬hasCol data w) :
    ∃ e, calc_counts_and_percentages group data sort weight = .error e := by
  rcases h with hg | ⟨w, hweq, hwcol⟩
  · rcases weight with _ | w
    · exact ⟨_, calc_unweighted_err group data _ sort (getCol_of_missing data group hg)⟩
    · exact ⟨_, calc_weighted_err_group group data _ sort w (getCol_of_missing data group hg)⟩
  · subst hweq
    cases hgc : getCol data group with
    | error e => exact ⟨e, calc_weighted_err_group group data e sort w hgc⟩
    | ok keys =>
      refine ⟨"KeyError: " ++ w, calc_weighted_err_num group data keys _ sort w hgc ?_⟩
      unfold getNumCol
      rw [getCol_of_missing data w hwcol]

/-- C9: the frequency table has exactly one row per distinct value of the
grouping column — its labels are distinct, they are exactly the values
occurring in the column, and the row count is the number of distinct
values. -/
theorem freq_table_one_row_per_distinct (group : String) (data : DataFrame)
    (sort : SortArg) (weight : Option String) (rows : List (Cell × ℚ × String))
    (col : List Cell) (hcol : getCol data group = .ok col)
    (hrows : calc_counts_and_percentages group data sort weight = .ok rows) :
    (rows.map fun r => r.1).Nodup
    ∧ (∀ c, c ∈ rows.map (fun r => r.1) ↔ c ∈ col)
    ∧ rows.length = col.toFinset.card := by
  have hperm : (rows.map fun r => r.1).Perm (uniqFirst col) := by
    cases weight with
    | none =>
      rw [calc_unweighted_eq group data col sort hcol] at hrows
      have h := Except.ok.inj hrows
      subst h
      rw [attach_percent_map_fst]
      have hp := (counts_pipeline_perm col sort).map Prod.fst
      rw [base_map_fst] at hp
      exact hp
    | some w =>
      cases hnum : getNumCol data w with
      | error e =>
        rw [calc_weighted_err_num group data col e sort w hcol hnum] at hrows
        exact absurd hrows (by simp)
      | ok vals =>
        rw [calc_weighted_eq group data col vals w sort hcol hnum] at hrows
        have h := Except.ok.inj hrows
        subst h
        rw [attach_percent_map_fst, groupby_sum_map_fst]
        exact sortBy_perm _ _
  refine ⟨hperm.nodup_iff.mpr (uniqFirst_nodup col),
    fun c => hperm.mem_iff.trans (mem_uniqFirst c col), ?_⟩
  have hlen : rows.length = (rows.map fun r => r.1).length :=
    (List.length_map _ _).symm
  rw [hlen, hperm.length_eq, uniqFirst_length]

/-- C10: on the weighted path the `sort` argument has no effect at all (the
index-sort branch is unreachable there), and the output follows the grouping
operation's default order, ascending by category label. -/
theorem weighted_path_ignores_sort (group : String) (data : DataFrame) (w : String) :
    (∀ s1 s2 : SortArg, calc_counts_and_percentages group data s1 (some w) =
      calc_counts_and_percentages group data s2 (some w))
    ∧ (∀ (sort : SortArg) rows,
      calc_counts_and_percentages group data sort (some w) = .ok rows →
      (rows.map fun r => r.1).Pairwise fun a b => cellLe a b = true) := by
  constructor
  · intro s1 s2
    rfl
  · intro sort rows hrows
    cases hcol : getCol data group with
    | error e =>
      rw [calc_weighted_err_group group data e sort w hcol] at hrows
      exact absurd hrows (by simp)
    | ok keys =>
      cases hnum : getNumCol data w with
      | error e =>
        rw [calc_weighted_err_num group data keys e sort w hcol hnum] at hrows
        exact absurd hrows (by simp)
      | ok vals =>
        rw [calc_weighted_eq group data keys vals w sort hcol hnum] at hrows
        have h := Except.ok.inj hrows
        subst h
        rw [attach_percent_map_fst, groupby_sum_map_fst]
        exact sortBy_pairwise cellLe cellLe_trans cellLe_total _

/-- C3: without a weight, `sort = True` orders the rows by count descending
and `sort = "index"` orders them by category label ascending; with a weight
the count-descending sort is not applied and the rows follow the natural
grouping order (the grouping keys in `groupby` order). -/
theorem sort_modes_of_freq_table (group : String) (data : DataFrame) :
    (∀ rows, calc_counts_and_percentages group data .sTrue none = .ok rows →
      rows.Pairwise fun a b => b.2.1 ≤ a.2.1)
    ∧ (∀ rows, calc_counts_and_percentages group data .sIndex none = .ok rows →
      rows.Pairwise fun a b => cellLe a.1 b.1 = true)
    ∧ (∀ (w : String) (sort : SortArg) rows keys, getCol data group = .ok keys →
      calc_counts_and_percentages group data sort (some w) = .ok rows →
      rows.map (fun r => r.1) = sortBy cellLe (uniqFirst keys)) := by
  refine ⟨?_, ?_, ?_⟩
  · intro rows hrows
    cases hcol : getCol data group with
    | error e =>
      rw [calc_unweighted_err group data e _ hcol] at hrows
      exact absurd hrows (by simp)
    | ok col =>
      rw [calc_unweighted_eq group data col .sTrue hcol] at hrows
      have h := Except.ok.inj hrows
      subst h
      rw [if_neg (by decide)]
      have hb : (SortArg.sTrue == SortArg.sTrue) = true := rfl
      rw [hb]
      have hvc : value_counts col true =
          sortBy (fun a b => decide (b.2 ≤ a.2))
            ((uniqFirst col).map fun v => (v, (col.count v : ℚ))) := by
        simp [value_counts]
      rw [hvc, attach_percent_eq_map]
      have hp := sortBy_pairwise (fun a b : Cell × ℚ => decide (b.2 ≤ a.2))
        descBool_trans descBool_total
        ((uniqFirst col).map fun v => (v, (col.count v : ℚ)))
      exact List.Pairwise.map _ (fun a b hab => decide_eq_true_eq.mp hab) hp
  · intro rows hrows
    cases hcol : getCol data group with
    | error e =>
      rw [calc_unweighted_err group data e _ hcol] at hrows
      exact absurd hrows (by simp)
    | ok col =>
      rw [calc_unweighted_eq group data col .sIndex hcol] at hrows
      have h := Except.ok.inj hrows
      subst h
      rw [if_pos rfl]
      have hb : (SortArg.sIndex == SortArg.sTrue) = false := rfl
      rw [hb]
      have hvc : value_counts col false =
          (uniqFirst col).map fun v => (v, (col.count v : ℚ)) := by
        simp [value_counts]
      rw [hvc]
      simp only [sort_index]
      rw [attach_percent_eq_map]
      have hp := sortBy_pairwise (fun a b : Cell × ℚ => cellLe a.1 b.1)
        (fun x y z hxy hyz => cellLe_trans _ _ _ hxy hyz)
        (fun x y => cellLe_total x.1 y.1)
        ((uniqFirst col).map fun v => (v, (col.count v : ℚ)))
      exact List.Pairwise.map _ (fun a b hab => hab) hp
  · intro w sort rows keys hcol hrows
    cases hnum : getNumCol data w with
    | error e =>
      rw [calc_weighted_err_num group data keys e sort w hcol hnum] at hrows
      exact absurd hrows (by simp)
    | ok vals =>
      rw [calc_weighted_eq group data keys vals w sort hcol hnum] at hrows
      have h := Except.ok.inj hrows
      subst h
      rw [attach_percent_map_fst, groupby_sum_map_fst]

/-! ### Concrete evaluation of the builder on `dfA` -/

lemma natRender_ten_n (n : ℕ) : natRender (n * 10) = ⟨natChars n ++ ['.', '0']⟩ := by
  unfold natRender
  have h1 : n * 10 / 10 = n := by omega
  have h2 : n * 10 % 10 = 0 := by omega
  rw [h1, h2]
  rfl

lemma natChars_two (t u : ℕ) (ht1 : 1 ≤ t) (ht9 : t ≤ 9) (hu : u ≤ 9) :
    natChars (t * 10 + u) = [Nat.digitChar t, Nat.digitChar u] := by
  rw [natChars_step _ (by omega)]
  have h1 : (t * 10 + u) / 10 = t := by omega
  have h2 : (t * 10 + u) % 10 = u := by omega
  rw [h1, h2, natChars_base t (by omega)]
  rfl

lemma pct_two_digits (c s : ℚ) (t u : ℕ) (hs : s ≠ 0)
    (hq : c / s * 100 = ((t * 10 + u : ℕ) : ℚ))
    (ht1 : 1 ≤ t) (ht9 : t ≤ 9) (hu : u ≤ 9) :
    fixup (formatPercentValue (divPercent c s)) =
      ⟨[Nat.digitChar t, Nat.digitChar u, '.', '0', '%']⟩ := by
  rw [fmt_entry_nat c s (t * 10 + u) hs hq (by omega) (by omega)]
  rw [natRender_ten_n, natChars_two t u ht1 ht9 hu]
  rfl

lemma pct_75 : fixup (formatPercentValue (divPercent 3 4)) = "75.0%" := by
  rw [pct_two_digits 3 4 7 5 (by norm_num) (by norm_num) (by norm_num) (by norm_num)
    (by norm_num)]
  decide

lemma pct_25 : fixup (formatPercentValue (divPercent 1 4)) = "25.0%" := by
  rw [pct_two_digits 1 4 2 5 (by norm_num) (by norm_num) (by norm_num) (by norm_num)
    (by norm_num)]
  decide

lemma pct_40 : fixup (formatPercentValue (divPercent 2 5)) = "40.0%" := by
  rw [pct_two_digits 2 5 4 0 (by norm_num) (by norm_num) (by norm_num) (by norm_num)
    (by norm_num)]
  decide

lemma pct_60 : fixup (formatPercentValue (divPercent 3 5)) = "60.0%" := by
  rw [pct_two_digits 3 5 6 0 (by norm_num) (by norm_num) (by norm_num) (by norm_num)
    (by norm_num)]
  decide
lemma uniq_colA : uniqFirst [Cell.str "b", Cell.str "a", Cell.str "b", Cell.str "b"] =
    [Cell.str "b", Cell.str "a"] := by simp [uniqFirst]

lemma calcA_eval : calc_counts_and_percentages "g" dfA .sTrue none = .ok rowsA := by
  have hcol : getCol dfA "g" = .ok colA := rfl
  rw [calc_unweighted_eq "g" dfA colA .sTrue hcol]
  rw [if_neg (by decide)]
  have hvc : value_counts colA (SortArg.sTrue == SortArg.sTrue) =
      [(Cell.str "b", (3 : ℚ)), (Cell.str "a", 1)] := by
    simp +decide [value_counts, colA, uniq_colA, List.count_cons, sortBy, insertOrd]
    norm_num
  rw [hvc]
  congr 1
  rw [attach_percent_eq_map]
  have hs4 : seriesSum [(Cell.str "b", (3 : ℚ)), (Cell.str "a", 1)] = 4 := by
    norm_num [seriesSum]
  rw [hs4]
  simp only [List.map_cons, List.map_nil]
  rw [pct_75, pct_25]
  rfl

lemma calcI_eval : calc_counts_and_percentages "g" dfA .sIndex none = .ok rowsI := by
  have hcol : getCol dfA "g" = .ok colA := rfl
  rw [calc_unweighted_eq "g" dfA colA .sIndex hcol]
  rw [if_pos rfl]
  have hvc : value_counts colA (SortArg.sIndex == SortArg.sTrue) =
      [(Cell.str "b", (3 : ℚ)), (Cell.str "a", 1)] := by
    simp +decide [value_counts, colA, uniq_colA, List.count_cons]
    norm_num
  rw [hvc]
  have hsi : sort_index [(Cell.str "b", (3 : ℚ)), (Cell.str "a", 1)] =
      [(Cell.str "a", (1 : ℚ)), (Cell.str "b", 3)] := by
    simp +decide [sort_index, sortBy, insertOrd, cellLe]
  rw [hsi]
  congr 1
  rw [attach_percent_eq_map]
  have hs4 : seriesSum [(Cell.str "a", (1 : ℚ)), (Cell.str "b", 3)] = 4 := by
    norm_num [seriesSum]
  rw [hs4]
  simp only [List.map_cons, List.map_nil]
  rw [pct_75, pct_25]
  rfl

lemma calcW_eval : calc_counts_and_percentages "g" dfA .sTrue (some "w") = .ok rowsW := by
  have hcol : getCol dfA "g" = .ok colA := rfl
  have hw : getNumCol dfA "w" = .ok [1, 2, 1, 1] := rfl
  rw [calc_weighted_eq "g" dfA colA [1, 2, 1, 1] "w" .sTrue hcol hw]
  have hgb : groupby_sum colA [1, 2, 1, 1] = [(Cell.str "a", (2 : ℚ)), (Cell.str "b", 3)] := by
    have hsrt : sortBy cellLe [Cell.str "b", Cell.str "a"] = [Cell.str "a", Cell.str "b"] := by
      simp +decide [sortBy, insertOrd, cellLe]
    simp +decide [groupby_sum, colA, uniq_colA, hsrt, List.filter]
    norm_num
  rw [hgb]
  congr 1
  rw [attach_percent_eq_map]
  have hs5 : seriesSum [(Cell.str "a", (2 : ℚ)), (Cell.str "b", 3)] = 5 := by
    norm_num [seriesSum]
  rw [hs5]
  simp only [List.map_cons, List.map_nil]
  rw [pct_40, pct_60]
  rfl

/-- Witness for C3 on `dfA`: count-descending rows, label-ascending rows, and
the weighted path in grouping order. -/
theorem sort_modes_of_freq_table_witness :
    calc_counts_and_percentages "g" dfA .sTrue none = .ok rowsA
    ∧ calc_counts_and_percentages "g" dfA .sIndex none = .ok rowsI
    ∧ calc_counts_and_percentages "g" dfA .sTrue (some "w") = .ok rowsW
    ∧ getCol dfA "g" = .ok colA
    ∧ rowsA.Pairwise (fun a b => b.2.1 ≤ a.2.1)
    ∧ rowsI.Pairwise (fun a b => cellLe a.1 b.1 = true)
    ∧ rowsW.map (fun r => r.1) = sortBy cellLe (uniqFirst colA) := by
  obtain ⟨h1, h2, h3⟩ := sort_modes_of_freq_table "g" dfA
  exact ⟨calcA_eval, calcI_eval, calcW_eval, rfl,
    h1 rowsA calcA_eval, h2 rowsI calcI_eval,
    h3 "w" .sTrue rowsW colA rfl calcW_eval⟩

/-- Witness for C4 on the zero-row table `dfE`. -/
theorem empty_table_empty_freq_table_witness :
    getCol dfE "g" = .ok [] ∧ getCol dfE "w" = .ok []
    ∧ calc_counts_and_percentages "g" dfE .sTrue none = .ok []
    ∧ calc_counts_and_percentages "g" dfE .sTrue (some "w") = .ok []
    ∧ counts_to_percentages ([] : List (Cell × ℚ)) = [] :=
  ⟨rfl, rfl, empty_table_empty_freq_table dfE "g" "w" .sTrue rfl rfl⟩

/-- Witness for C5: requesting the absent column `"z"` of `dfA` errors. -/
theorem missing_column_errors_witness :
    ¬hasCol dfA "z"
    ∧ ∃ e, calc_counts_and_percentages "z" dfA .sTrue none = .error e :=
  ⟨by simp [hasCol, dfA],
   missing_column_errors "z" dfA .sTrue none (Or.inl (by simp [hasCol, dfA]))⟩

/-- Witness for C9 on `dfA` grouped by `"g"` (default sort). -/
theorem freq_table_one_row_per_distinct_witness :
    getCol dfA "g" = .ok colA
    ∧ calc_counts_and_percentages "g" dfA .sTrue none = .ok rowsA
    ∧ (rowsA.map fun r => r.1).Nodup
    ∧ (∀ c, c ∈ rowsA.map (fun r => r.1) ↔ c ∈ colA)
    ∧ rowsA.length = colA.toFinset.card :=
  ⟨rfl, calcA_eval,
   freq_table_one_row_per_distinct "g" dfA .sTrue none rowsA colA rfl calcA_eval⟩

/-- Witness for C10 on `dfA` weighted by `"w"`. -/
theorem weighted_path_ignores_sort_witness :
    calc_counts_and_percentages "g" dfA .sTrue (some "w") = .ok rowsW
    ∧ calc_counts_and_percentages "g" dfA .sTrue (some "w") =
      calc_counts_and_percentages "g" dfA .sIndex (some "w")
    ∧ (rowsW.map fun r => r.1).Pairwise (fun a b => cellLe a b = true) := by
  obtain ⟨h1, h2⟩ := weighted_path_ignores_sort "g" dfA "w"
  exact ⟨calcW_eval, h1 .sTrue .sIndex, h2 .sTrue rowsW calcW_eval⟩
